import Mathlib

/-!
# MetronomiQ — verification of the tempo model (`src/main.py`)

A shallow embedding of the metronome's core logic:

* the class constant `Metronome.__tempi` (the Maelzel tempo table),
* `TempoValidator.fixup` (the clamp-on-fixup input filter),
* `Metronome.__get_marking` (traditional-marking classification),
* `Metronome.__update_tempo`, `Metronome.__switch_mode`,
  `Metronome.__start_stop_metronome` (the stateful tempo/mode/playback
  logic), modelled as explicit state-passing over an `MState` record.

Python's `str`/`int` conversions are embedded as executable functions on
`List Char`, and `bisect.bisect_left` is embedded by its documented
semantics on a sorted list (leftmost insertion point).  Fallible Python
code (raising `ValueError`, `IndexError`, `ZeroDivisionError`) is
embedded with `Option`/`Except`.
-/

namespace MetronomiQ

/-! ## Python `range`: `list(range(start, stop, step))` for positive step -/

/-- `pyRangeAux start step n` is `[start, start+step, …]` with `n` elements. -/
def pyRangeAux (start step : Int) : Nat → List Int
  | 0 => []
  | n + 1 => start :: pyRangeAux (start + step) step n

/-- Python `list(range(start, stop, step))` for a positive `step`:
`max 0 ⌈(stop-start)/step⌉` elements starting at `start`. -/
def pyRange (start stop step : Int) : List Int :=
  pyRangeAux start step ((stop - start + step - 1) / step).toNat

/-- The class constant `Metronome.__tempi` (src/main.py lines 25–29). -/
def tempi : List Int :=
  pyRange 40 61 2 ++ pyRange 63 73 3 ++ pyRange 76 121 4 ++
    pyRange 126 145 6 ++ pyRange 152 209 8

/-! ## Python `str` on integers -/

/-- The decimal digit character for `d < 10`. -/
def digitChar (d : Nat) : Char := Char.ofNat (48 + d)

/-- The numeric value of a decimal digit character. -/
def digitVal (c : Char) : Nat := c.toNat - 48

/-- Big-endian decimal digits of `n`; `fuel > n` suffices. -/
def natDigitsAux : Nat → Nat → List Char
  | 0, _ => []
  | fuel + 1, n =>
    if n < 10 then [digitChar n]
    else natDigitsAux fuel (n / 10) ++ [digitChar (n % 10)]

/-- Python `str` on a natural number. -/
def natToStr (n : Nat) : String := String.mk (natDigitsAux (n + 1) n)

/-- Python `str` on an integer (a leading `-` for negatives). -/
def intToStr (n : Int) : String :=
  if n < 0 then String.mk ('-' :: natDigitsAux (n.natAbs + 1) n.natAbs)
  else natToStr n.natAbs

/-! ## Python `int` on strings

Python's `int(s)` strips surrounding whitespace, accepts one optional
sign, then decimal digits in which single underscores may separate
digits; anything else raises `ValueError` (embedded as `none`). -/

/-- Digit run with optional single underscores between digits,
accumulating onto `acc`. -/
def parseDigitsAux : Nat → List Char → Option Nat
  | acc, [] => some acc
  | acc, c :: cs =>
    if c.isDigit then parseDigitsAux (10 * acc + digitVal c) cs
    else if c = '_' then
      match cs with
      | c₂ :: cs₂ =>
        if c₂.isDigit then parseDigitsAux (10 * acc + digitVal c₂) cs₂ else none
      | [] => none
    else none

/-- A nonempty digit run (underscores allowed between digits). -/
def parseDigitsList : List Char → Option Nat
  | [] => none
  | c :: cs => if c.isDigit then parseDigitsAux (digitVal c) cs else none

/-- Strip whitespace from both ends. -/
def trimChars (cs : List Char) : List Char :=
  ((cs.dropWhile Char.isWhitespace).reverse.dropWhile Char.isWhitespace).reverse

/-- Sign handling of Python `int` after trimming. -/
def parseIntChars (cs : List Char) : Option Int :=
  match cs with
  | [] => none
  | c :: rest =>
    if c = '-' then (parseDigitsList rest).map (fun m => -Int.ofNat m)
    else if c = '+' then (parseDigitsList rest).map Int.ofNat
    else (parseDigitsList (c :: rest)).map Int.ofNat

/-- Python `int(s)`: `none` models a raised `ValueError`. -/
def parseInt (s : String) : Option Int := parseIntChars (trimChars s.data)

/-! ## `TempoValidator.fixup` (src/main.py lines 13–21) -/

/-- Failure modes of the embedded `fixup`: Python's `ValueError` from
`int(s)`, or exhaustion of the loop fuel (the Python `while` loop can
run forever when `bottom > top`, so the embedding is fuel-indexed). -/
inductive FixupErr where
  | valueError
  | outOfFuel
deriving DecidableEq

/-- The `while not b <= (n := int(s)) <= (t := self.top())` loop of
`TempoValidator.fixup`, returning the final string together with the
number of replacement iterations performed. -/
def clampLoop : Nat → Int → Int → String → Except FixupErr (String × Nat)
  | 0, _, _, _ => .error .outOfFuel
  | fuel + 1, b, t, s =>
    match parseInt s with
    | none => .error .valueError
    | some n =>
      if b ≤ n ∧ n ≤ t then .ok (s, 0)
      else
        match clampLoop fuel b t (if n < b then intToStr b else intToStr t) with
        | .ok (s₂, k) => .ok (s₂, k + 1)
        | .error e => .error e

/-- `TempoValidator.fixup(s)` with `bottom = b`, `top = t`: an empty
string is first replaced by `str(b)`, then the clamping loop runs. -/
def fixup (fuel : Nat) (b t : Int) (s : String) : Except FixupErr (String × Nat) :=
  clampLoop fuel b t (if s = "" then intToStr b else s)

/-! ## `Metronome.__get_marking` (src/main.py lines 232–252) -/

/-- Traditional tempo marking of a tempo, exactly as the source returns
it (including the source's spelling `"Largetto"` on line 240). -/
def getMarking (t : Int) : String :=
  if t ≤ 24 then "Larghissimo"
  else if t ≤ 40 then "Grave"
  else if t ≤ 60 then "Largo"
  else if t ≤ 66 then "Largetto"
  else if t ≤ 76 then "Adagio"
  else if t ≤ 108 then "Andante"
  else if t ≤ 120 then "Moderato"
  else if t ≤ 168 then "Allegro"
  else if t ≤ 200 then "Presto"
  else "Prestissimo"

/-! ## `bisect.bisect_left` -/

/-- `bisect.bisect_left l x`, by its documented semantics on the sorted
lists it is applied to here: the leftmost insertion point, i.e. the
number of leading elements `< x`. -/
def bisectLeft (l : List Int) (x : Int) : Nat :=
  match l with
  | [] => 0
  | a :: rest => if a < x then bisectLeft rest x + 1 else 0

/-- The slider's maximum position: `len(self.__tempi) - 1`
(src/main.py line 149). -/
def sliderMax : Nat := tempi.length - 1

/-- The spec's `indexOfNearestAtOrAbove`: the insertion-point search the
source runs on line 227 (`bisect_left(self.__tempi, ...)`) composed with
the clamp `QSlider.setValue` applies to keep the value within the
slider range `[0, sliderMax]`. -/
def indexOfNearestAtOrAbove (t : Int) : Nat :=
  min (bisectLeft tempi t) sliderMax

/-! ## Decimal print/parse round trip -/

theorem digitChar_spec (d : Nat) (h : d < 10) :
    (digitChar d).isDigit = true ∧ digitVal (digitChar d) = d ∧
      (digitChar d).isWhitespace = false ∧ digitChar d ≠ '-' ∧ digitChar d ≠ '+' := by
  interval_cases d <;> exact ⟨by decide, by decide, by decide, by decide, by decide⟩

theorem natDigitsAux_mem (fuel n : Nat) (h : n < fuel) :
    ∀ c ∈ natDigitsAux fuel n, ∃ d, d < 10 ∧ c = digitChar d := by
  induction fuel generalizing n with
  | zero => omega
  | succ fuel ih =>
    intro c hc
    by_cases h10 : n < 10
    · simp only [natDigitsAux, if_pos h10, List.mem_singleton] at hc
      exact ⟨n, h10, hc⟩
    · simp only [natDigitsAux, if_neg h10, List.mem_append, List.mem_singleton] at hc
      rcases hc with hc | hc
      · exact ih (n / 10) (by omega) c hc
      · exact ⟨n % 10, Nat.mod_lt _ (by omega), hc⟩

theorem natDigitsAux_ne_nil (fuel n : Nat) (h : n < fuel) : natDigitsAux fuel n ≠ [] := by
  cases fuel with
  | zero => omega
  | succ fuel => by_cases h10 : n < 10 <;> simp [natDigitsAux, h10]

theorem parseDigitsAux_cons_digit (acc : Nat) (c : Char) (cs : List Char)
    (h : c.isDigit = true) :
    parseDigitsAux acc (c :: cs) = parseDigitsAux (10 * acc + digitVal c) cs := by
  cases cs with
  | nil => rw [parseDigitsAux.eq_3, if_pos h]
  | cons c₂ cs₂ => rw [parseDigitsAux.eq_2, if_pos h]

theorem parseDigitsList_cons_digit (c : Char) (cs : List Char) (h : c.isDigit = true) :
    parseDigitsList (c :: cs) = parseDigitsAux (digitVal c) cs := by
  rw [parseDigitsList.eq_2, if_pos h]

theorem parseDigitsAux_natDigitsAux (fuel n : Nat) (h : n < fuel) (acc : Nat)
    (ys : List Char) :
    parseDigitsAux acc (natDigitsAux fuel n ++ ys) =
      parseDigitsAux (acc * 10 ^ (natDigitsAux fuel n).length + n) ys := by
  induction fuel generalizing n acc ys with
  | zero => omega
  | succ fuel ih =>
    by_cases h10 : n < 10
    · obtain ⟨hd, hv, -, -, -⟩ := digitChar_spec n h10
      simp only [natDigitsAux, if_pos h10, List.singleton_append, List.length_singleton]
      rw [parseDigitsAux_cons_digit _ _ _ hd, hv]
      have : acc * 10 ^ 1 + n = 10 * acc + n := by ring
      rw [this]
    · obtain ⟨hd, hv, -, -, -⟩ := digitChar_spec (n % 10) (Nat.mod_lt _ (by omega))
      have hdiv : n / 10 < fuel := by omega
      simp only [natDigitsAux, if_neg h10, List.append_assoc, List.singleton_append,
        List.length_append, List.length_singleton]
      rw [ih (n / 10) hdiv acc (digitChar (n % 10) :: ys)]
      rw [parseDigitsAux_cons_digit _ _ _ hd, hv]
      have key : 10 * (acc * 10 ^ (natDigitsAux fuel (n / 10)).length + n / 10) + n % 10 =
          acc * 10 ^ ((natDigitsAux fuel (n / 10)).length + 1) + n := by
        rw [pow_succ, ← mul_assoc]
        omega
      rw [key]

theorem parseDigitsList_natDigits (n : Nat) :
    parseDigitsList (natDigitsAux (n + 1) n) = some n := by
  obtain ⟨c, cs, hcons⟩ : ∃ c cs, natDigitsAux (n + 1) n = c :: cs := by
    cases h : natDigitsAux (n + 1) n with
    | nil => exact absurd h (natDigitsAux_ne_nil _ _ (Nat.lt_succ_self n))
    | cons c cs => exact ⟨c, cs, rfl⟩
  have hdig : c.isDigit = true := by
    obtain ⟨d, hd, hcd⟩ := natDigitsAux_mem _ _ (Nat.lt_succ_self n) c (by rw [hcons]; simp)
    rw [hcd]; exact (digitChar_spec d hd).1
  have hfold := parseDigitsAux_natDigitsAux (n + 1) n (Nat.lt_succ_self n) 0 []
  rw [List.append_nil, hcons, parseDigitsAux_cons_digit _ _ _ hdig] at hfold
  rw [hcons, parseDigitsList_cons_digit _ _ hdig]
  simpa using hfold

theorem dropWhile_eq_self_of_not (p : Char → Bool) (cs : List Char)
    (h : ∀ c ∈ cs, p c = false) : cs.dropWhile p = cs := by
  cases cs with
  | nil => rfl
  | cons c cs => simp [List.dropWhile_cons, h c (by simp)]

theorem trimChars_eq_self (cs : List Char) (h : ∀ c ∈ cs, c.isWhitespace = false) :
    trimChars cs = cs := by
  unfold trimChars
  rw [dropWhile_eq_self_of_not _ _ h,
    dropWhile_eq_self_of_not _ _ (fun c hc => h c (List.mem_reverse.mp hc)),
    List.reverse_reverse]

theorem natDigits_not_ws (n : Nat) :
    ∀ c ∈ natDigitsAux (n + 1) n, c.isWhitespace = false := by
  intro c hc
  obtain ⟨d, hd, hcd⟩ := natDigitsAux_mem _ _ (Nat.lt_succ_self n) c hc
  rw [hcd]; exact (digitChar_spec d hd).2.2.1

/-- Python round trip: `int(str(n)) == n`. -/
theorem parseInt_intToStr (n : Int) : parseInt (intToStr n) = some n := by
  by_cases hneg : n < 0
  · have habs : -Int.ofNat n.natAbs = n := by rw [Int.ofNat_eq_natCast]; omega
    simp only [intToStr, if_pos hneg, parseInt]
    rw [trimChars_eq_self _ (by
      intro c hc
      rcases List.mem_cons.mp hc with hc | hc
      · rw [hc]; decide
      · exact natDigits_not_ws _ c hc)]
    rw [parseIntChars.eq_2, if_pos rfl, parseDigitsList_natDigits, Option.map_some',
      habs]
  · have habs : Int.ofNat n.natAbs = n := by rw [Int.ofNat_eq_natCast]; omega
    obtain ⟨c, cs, hcons⟩ : ∃ c cs, natDigitsAux (n.natAbs + 1) n.natAbs = c :: cs := by
      cases h : natDigitsAux (n.natAbs + 1) n.natAbs with
      | nil => exact absurd h (natDigitsAux_ne_nil _ _ (Nat.lt_succ_self _))
      | cons c cs => exact ⟨c, cs, rfl⟩
    obtain ⟨d, hd, hcd⟩ :=
      natDigitsAux_mem _ _ (Nat.lt_succ_self n.natAbs) c (by rw [hcons]; simp)
    obtain ⟨-, -, -, hdash, hplus⟩ := digitChar_spec d hd
    simp only [intToStr, if_neg hneg, natToStr, parseInt]
    rw [trimChars_eq_self _ (natDigits_not_ws _)]
    rw [hcons]
    have h1 : c ≠ '-' := by rw [hcd]; exact hdash
    have h2 : c ≠ '+' := by rw [hcd]; exact hplus
    have hplist : parseDigitsList (c :: cs) = some n.natAbs := by
      rw [← hcons]; exact parseDigitsList_natDigits n.natAbs
    rw [parseIntChars.eq_2, if_neg h1, if_neg h2, hplist, Option.map_some', habs]

/-- Python `str(n)` is never the empty string. -/
theorem intToStr_ne_empty (n : Int) : intToStr n ≠ "" := by
  by_cases hneg : n < 0
  · simp only [intToStr, if_pos hneg]
    intro h
    exact List.cons_ne_nil _ _ (congrArg String.data h)
  · simp only [intToStr, if_neg hneg, natToStr]
    intro h
    exact natDigitsAux_ne_nil _ _ (Nat.lt_succ_self _) (congrArg String.data h)

/-! ## `bisectLeft` lemmas -/

theorem bisectLeft_le_length (l : List Int) (x : Int) : bisectLeft l x ≤ l.length := by
  induction l with
  | nil => simp [bisectLeft]
  | cons a rest ih =>
    by_cases h : a < x <;> simp only [bisectLeft, if_pos, if_neg, h, List.length_cons,
      if_true, if_false] <;> omega

theorem get_lt_of_lt_bisectLeft (l : List Int) (x : Int) (i : Nat) (hi : i < l.length)
    (h : i < bisectLeft l x) : l[i] < x := by
  induction l generalizing i with
  | nil => simp at hi
  | cons a rest ih =>
    by_cases ha : a < x
    · cases i with
      | zero => simpa using ha
      | succ i =>
        simp only [bisectLeft, if_pos ha] at h
        simpa using ih i (by simpa using hi) (by omega)
    · simp [bisectLeft, ha] at h

theorem le_get_bisectLeft (l : List Int) (x : Int) (h : bisectLeft l x < l.length) :
    x ≤ l[bisectLeft l x] := by
  induction l with
  | nil => simp at h
  | cons a rest ih =>
    by_cases ha : a < x
    · have h2 : bisectLeft rest x < rest.length := by
        simpa [bisectLeft, ha] using h
      have := ih h2
      simpa [bisectLeft, ha] using this
    · simpa [bisectLeft, ha] using le_of_not_lt ha

theorem bisectLeft_eq_length (l : List Int) (x : Int) (h : ∀ e ∈ l, e < x) :
    bisectLeft l x = l.length := by
  induction l with
  | nil => rfl
  | cons a rest ih =>
    simp only [bisectLeft, if_pos (h a (by simp)), List.length_cons]
    rw [ih (fun e he => h e (by simp [he]))]

theorem bisectLeft_get_self (l : List Int) (hs : List.Pairwise (· < ·) l)
    (i : Nat) (hi : i < l.length) : bisectLeft l l[i] = i := by
  induction l generalizing i with
  | nil => simp at hi
  | cons a rest ih =>
    rcases List.pairwise_cons.mp hs with ⟨hall, hrest⟩
    cases i with
    | zero => simp [bisectLeft]
    | succ i =>
      have hi2 : i < rest.length := by simpa using hi
      have hget : (a :: rest)[i + 1] = rest[i] := by simp
      rw [hget]
      have ha : a < rest[i] := hall _ (List.getElem_mem hi2)
      simp only [bisectLeft, if_pos ha]
      rw [ih hrest i hi2]

/-! ## Concrete facts about the tempo table -/

theorem tempi_sorted : List.Pairwise (· < ·) tempi := by decide

theorem tempi_bounds : ∀ e ∈ tempi, 40 ≤ e ∧ e ≤ 208 := by decide

theorem tempi_length : tempi.length = 39 := by decide

/-! ## The `Metronome` window state

`MState` collects the mutable widget and model state of the `Metronome`
window that the tempo/mode/playback logic reads and writes: the fields
`__current_tempo`, `__playing`, `__mode`, the slider position / enabled
/ visible state, the line-edit text and its (and the prompt's)
visibility, the indicator labels, the start/stop button label, and the
`QTimeLine`'s update interval and running flag. -/

/-- `Metronome.__Mode` (src/main.py lines 31–38). -/
inductive Mode where
  | maelzel
  | precise
deriving DecidableEq

/-- `Metronome.__Mode.__str__`. -/
def modeStr : Mode → String
  | .maelzel => "Maelzel's metronome"
  | .precise => "Precise tempo"

/-- The mutable state of the `Metronome` window. -/
structure MState where
  currentTempo : Int
  playing : Bool
  mode : Mode
  sliderValue : Nat
  sliderEnabled : Bool
  sliderVisible : Bool
  inputEnabled : Bool
  inputVisible : Bool
  promptVisible : Bool
  tempoText : String
  tempoIndicator : String
  markingText : String
  modeIndicator : String
  buttonLabel : String
  timerInterval : Int
  timerActive : Bool
deriving DecidableEq

/-- `Metronome.__update_tempo` (src/main.py lines 217–230).  `none`
models an uncaught exception (`IndexError` from `self.__tempi[...]` or
`ValueError` from `int(t)`).  In the precise branch,
`self.__slider.setValue(...)` clamps its argument into the slider range
`[0, sliderMax]`; the re-entrant `valueChanged → __update_tempo` pass it
can trigger recomputes exactly the same values from the unchanged text,
so the net effect is the single pass below. -/
def updateTempo (s : MState) : Option MState :=
  match s.mode with
  | .maelzel =>
    match tempi.get? s.sliderValue with
    | none => none
    | some v =>
      some { s with currentTempo := v, tempoText := intToStr v,
                    tempoIndicator := intToStr v, markingText := getMarking v }
  | .precise =>
    match if s.tempoText = "" then tempi.get? 0 else parseInt s.tempoText with
    | none => none
    | some v =>
      some { s with currentTempo := v,
                    sliderValue := min (bisectLeft tempi v) sliderMax,
                    tempoIndicator := intToStr v, markingText := getMarking v }

/-- `Metronome.__switch_mode` (src/main.py lines 195–215): toggle the
mode and the widgets' visible/enabled flags, then re-run
`__update_tempo` and refresh the mode indicator. -/
def switchMode (s : MState) : Option MState :=
  let s₁ : MState :=
    match s.mode with
    | .maelzel =>
      { s with mode := .precise, inputVisible := true, inputEnabled := true,
               promptVisible := true, sliderEnabled := false, sliderVisible := false }
    | .precise =>
      { s with mode := .maelzel, inputVisible := false, inputEnabled := false,
               promptVisible := false, sliderEnabled := true, sliderVisible := true }
  match updateTempo s₁ with
  | none => none
  | some s₂ => some { s₂ with modeIndicator := "Mode: " ++ modeStr s₂.mode }

/-- A slider move: `QSlider.setValue` clamps the value into
`[0, sliderMax]` and emits `valueChanged` — wired to `__update_tempo`
(src/main.py line 150) — only when the stored value actually changes. -/
def setSliderValue (s : MState) (v : Int) : Option MState :=
  let v₂ : Nat := (min (max v 0) (sliderMax : Int)).toNat
  if v₂ = s.sliderValue then some s
  else updateTempo { s with sliderValue := v₂ }

/-- A text-entry commit: the line edit's content becomes `txt` and
`editingFinished` — wired to `__update_tempo` (src/main.py line 156) —
fires. -/
def commitTempoText (s : MState) (txt : String) : Option MState :=
  updateTempo { s with tempoText := txt }

/-- The `if not self.__playing` arm of `__start_stop_metronome`
(src/main.py lines 255–261), after the tick interval has been computed.
Python's `//` is floor division, hence `Int.fdiv`. -/
def startBranch (s : MState) : MState :=
  { s with buttonLabel := "Stop", sliderEnabled := false,
           timerInterval := Int.fdiv 60000 s.currentTempo,
           timerActive := true, playing := true }

/-- The `else` arm of `__start_stop_metronome` (src/main.py lines
262–267). -/
def stopBranch (s : MState) : MState :=
  { s with buttonLabel := "Start", sliderEnabled := true,
           timerActive := false, playing := false }

/-- `Metronome.__start_stop_metronome` (src/main.py lines 254–267).
`none` models the `ZeroDivisionError` that `60_000 //
self.__current_tempo` raises when the tempo is zero. -/
def startStopMetronome (s : MState) : Option MState :=
  if s.playing = false then
    if s.currentTempo = 0 then none else some (startBranch s)
  else some (stopBranch s)

/-- Modelled from the spec: §4.4's `stop` operation.  The source exposes
only the toggle `__start_stop_metronome`; its stop arm (`stopBranch`) is
what runs when `Running`, and `stop` while `Stopped` is the spec's
permitted deterministic no-op. -/
def stopOp (s : MState) : MState :=
  if s.playing then stopBranch s else s

/-- The state after `Metronome.__init__` together with the widget set-up
(src/main.py lines 40–55, 117–121, 143–170): tempo `__tempi[0]`, not
playing, Maelzel mode, slider at position 0 over `[0, sliderMax]`, text
field preloaded with the tempo, indicators derived from the tempo, timer
idle (40 ms is `QTimeLine`'s default update interval). -/
def initState : MState :=
  let t₀ : Int := (tempi.get? 0).getD 0
  { currentTempo := t₀, playing := false, mode := .maelzel,
    sliderValue := 0, sliderEnabled := true, sliderVisible := true,
    inputEnabled := false, inputVisible := false, promptVisible := false,
    tempoText := intToStr t₀, tempoIndicator := intToStr t₀,
    markingText := getMarking t₀, modeIndicator := "Mode: " ++ modeStr .maelzel,
    buttonLabel := "Start", timerInterval := 40, timerActive := false }

/-- The externally triggered operations on the window state. -/
inductive Op where
  | setSlider (v : Int)
  | commitText (txt : String)
  | switchMode
  | startStop

/-- Run one operation. -/
def applyOp (s : MState) : Op → Option MState
  | .setSlider v => setSliderValue s v
  | .commitText txt => commitTempoText s txt
  | .switchMode => switchMode s
  | .startStop => startStopMetronome s

/-- Modelled from the spec: §4.3 — the `TempoValidator(20, 300)`
attached to the line edit (src/main.py line 155) guarantees that only
the empty string or an integer string within `[20, 300]` is ever
committed; the other operations carry no argument to constrain. -/
def ValidOp : Op → Prop
  | .commitText txt => txt = "" ∨ ∃ n, parseInt txt = some n ∧ 20 ≤ n ∧ n ≤ 300
  | _ => True

/-- The state invariant: the slider position is a valid table index; in
Maelzel mode the tempo is the table entry at the slider position and the
text field mirrors it; in Precise mode the tempo is within `[20, 300]`,
the slider tracks the tempo's insertion point, and the text field is
empty (tempo 40) or parses to the tempo. -/
def Inv (s : MState) : Prop :=
  s.sliderValue < tempi.length ∧
    (s.mode = .maelzel →
      (∃ h : s.sliderValue < tempi.length, s.currentTempo = tempi.get ⟨s.sliderValue, h⟩) ∧
        s.tempoText = intToStr s.currentTempo) ∧
    (s.mode = .precise →
      (20 ≤ s.currentTempo ∧ s.currentTempo ≤ 300) ∧
        s.sliderValue = min (bisectLeft tempi s.currentTempo) sliderMax ∧
        (s.tempoText = "" ∧ s.currentTempo = 40 ∨ parseInt s.tempoText = some s.currentTempo))

/-! ## Computed forms of the operations -/

theorem sliderMax_lt_length : sliderMax < tempi.length := by decide

theorem updateTempo_maelzel (s : MState) (hm : s.mode = .maelzel)
    (hv : s.sliderValue < tempi.length) :
    updateTempo s = some { s with
      currentTempo := tempi.get ⟨s.sliderValue, hv⟩,
      tempoText := intToStr (tempi.get ⟨s.sliderValue, hv⟩),
      tempoIndicator := intToStr (tempi.get ⟨s.sliderValue, hv⟩),
      markingText := getMarking (tempi.get ⟨s.sliderValue, hv⟩) } := by
  have hget : tempi[s.sliderValue]? = some (tempi.get ⟨s.sliderValue, hv⟩) := by
    simp [List.getElem?_eq_getElem hv]
  simp [updateTempo, hm, hget]

theorem updateTempo_precise_parse (s : MState) (hm : s.mode = .precise)
    (hne : s.tempoText ≠ "") (n : Int) (hp : parseInt s.tempoText = some n) :
    updateTempo s = some { s with
      currentTempo := n,
      sliderValue := min (bisectLeft tempi n) sliderMax,
      tempoIndicator := intToStr n, markingText := getMarking n } := by
  simp [updateTempo, hm, hne, hp]

theorem updateTempo_precise_empty (s : MState) (hm : s.mode = .precise)
    (he : s.tempoText = "") :
    updateTempo s = some { s with
      currentTempo := 40, sliderValue := 0,
      tempoIndicator := intToStr 40, markingText := getMarking 40 } := by
  have h40 : tempi[(0 : Nat)]? = some (40 : Int) := by decide
  have hb : min (bisectLeft tempi 40) sliderMax = 0 := by decide
  simp [updateTempo, hm, he, h40, hb]

theorem switchMode_from_maelzel (s : MState) (hm : s.mode = .maelzel)
    (ht : s.tempoText = intToStr s.currentTempo) :
    switchMode s = some { s with
      mode := .precise, inputVisible := true, inputEnabled := true,
      promptVisible := true, sliderEnabled := false, sliderVisible := false,
      sliderValue := min (bisectLeft tempi s.currentTempo) sliderMax,
      tempoIndicator := intToStr s.currentTempo,
      markingText := getMarking s.currentTempo,
      modeIndicator := "Mode: Precise tempo" } := by
  have h₁ := updateTempo_precise_parse
    { s with mode := .precise, inputVisible := true, inputEnabled := true,
             promptVisible := true, sliderEnabled := false, sliderVisible := false }
    rfl (by simpa [ht] using intToStr_ne_empty s.currentTempo)
    s.currentTempo (by simpa [ht] using parseInt_intToStr s.currentTempo)
  simp [switchMode, hm, h₁, modeStr]

theorem switchMode_from_precise (s : MState) (hm : s.mode = .precise)
    (hv : s.sliderValue < tempi.length) :
    switchMode s = some { s with
      mode := .maelzel, inputVisible := false, inputEnabled := false,
      promptVisible := false, sliderEnabled := true, sliderVisible := true,
      currentTempo := tempi.get ⟨s.sliderValue, hv⟩,
      tempoText := intToStr (tempi.get ⟨s.sliderValue, hv⟩),
      tempoIndicator := intToStr (tempi.get ⟨s.sliderValue, hv⟩),
      markingText := getMarking (tempi.get ⟨s.sliderValue, hv⟩),
      modeIndicator := "Mode: Maelzel's metronome" } := by
  have h₁ := updateTempo_maelzel
    { s with mode := .maelzel, inputVisible := false, inputEnabled := false,
             promptVisible := false, sliderEnabled := true, sliderVisible := true }
    rfl hv
  simp [switchMode, hm, h₁, modeStr]

theorem startStop_not_playing (s : MState) (hp : s.playing = false)
    (h0 : s.currentTempo ≠ 0) : startStopMetronome s = some (startBranch s) := by
  unfold startStopMetronome
  rw [hp, if_pos rfl, if_neg h0]

theorem startStop_zero_tempo (s : MState) (hp : s.playing = false)
    (h0 : s.currentTempo = 0) : startStopMetronome s = none := by
  unfold startStopMetronome
  rw [hp, if_pos rfl, if_pos h0]

theorem startStop_playing (s : MState) (hp : s.playing = true) :
    startStopMetronome s = some (stopBranch s) := by
  unfold startStopMetronome
  rw [hp, if_neg (by simp)]

/-! ## Claim theorems -/

/-- C1 (code_bug evidence): the classification the source actually
computes at every boundary tempo of the spec's table.  All boundaries
match the spec except the range `61..66`, where line 240 of the source
returns the misspelling `"Largetto"` instead of the canonical marking
`"Larghetto"` that the spec (and the claim) name. -/
theorem marking_boundary_values :
    getMarking 24 = "Larghissimo" ∧ getMarking 25 = "Grave" ∧ getMarking 40 = "Grave" ∧
      getMarking 41 = "Largo" ∧ getMarking 60 = "Largo" ∧
      getMarking 61 = "Largetto" ∧ getMarking 66 = "Largetto" ∧
      getMarking 61 ≠ "Larghetto" ∧ getMarking 66 ≠ "Larghetto" ∧
      getMarking 67 = "Adagio" ∧ getMarking 76 = "Adagio" ∧
      getMarking 77 = "Andante" ∧ getMarking 108 = "Andante" ∧
      getMarking 109 = "Moderato" ∧ getMarking 120 = "Moderato" ∧
      getMarking 121 = "Allegro" ∧ getMarking 168 = "Allegro" ∧
      getMarking 169 = "Presto" ∧ getMarking 200 = "Presto" ∧
      getMarking 201 = "Prestissimo" := by
  decide

/-- C2: `indexOfNearestAtOrAbove t` is always a valid table index; it is
a lower bound for every index holding a value `≥ t`; whenever `t ≤ 208`
(the last entry) the value at the returned index is `≥ t`, so it is the
smallest such index; when `t` exceeds 208 it returns `size - 1`; and on
a table entry it returns that entry's own index. -/
theorem indexOfNearestAtOrAbove_correct (t : Int) :
    indexOfNearestAtOrAbove t < tempi.length ∧
      (∀ i, i < tempi.length → t ≤ tempi.getD i 0 → indexOfNearestAtOrAbove t ≤ i) ∧
      (t ≤ 208 → t ≤ tempi.getD (indexOfNearestAtOrAbove t) 0) ∧
      (208 < t → indexOfNearestAtOrAbove t = tempi.length - 1) ∧
      (∀ i, i < tempi.length → tempi.getD i 0 = t → indexOfNearestAtOrAbove t = i) := by
  have hsm : sliderMax = 38 := by decide
  have hlen : tempi.length = 39 := tempi_length
  have hminle := Nat.min_le_right (bisectLeft tempi t) sliderMax
  have hminleL := Nat.min_le_left (bisectLeft tempi t) sliderMax
  refine ⟨?_, ?_, ?_, ?_, ?_⟩
  · unfold indexOfNearestAtOrAbove
    omega
  · intro i hi hti
    have hbi : bisectLeft tempi t ≤ i := by
      by_contra hcon
      have hlt := get_lt_of_lt_bisectLeft tempi t i hi (by omega)
      rw [List.getD_eq_getElem tempi 0 hi] at hti
      omega
    unfold indexOfNearestAtOrAbove
    omega
  · intro h208
    have hb38 : bisectLeft tempi t ≤ 38 := by
      by_contra hcon
      have h38 : (38 : Nat) < tempi.length := by omega
      have hlt := get_lt_of_lt_bisectLeft tempi t 38 h38 (by omega)
      have hval : tempi.getD 38 0 = 208 := by decide
      rw [← List.getD_eq_getElem tempi 0 h38] at hlt
      omega
    have hmin : indexOfNearestAtOrAbove t = bisectLeft tempi t := by
      unfold indexOfNearestAtOrAbove
      omega
    have hblen : bisectLeft tempi t < tempi.length := by omega
    rw [hmin, List.getD_eq_getElem tempi 0 hblen]
    exact le_get_bisectLeft tempi t hblen
  · intro h208
    have hall : ∀ e ∈ tempi, e < t := fun e he => by
      have := (tempi_bounds e he).2
      omega
    have hb := bisectLeft_eq_length tempi t hall
    unfold indexOfNearestAtOrAbove
    omega
  · intro i hi hti
    have hself := bisectLeft_get_self tempi tempi_sorted i hi
    rw [List.getD_eq_getElem tempi 0 hi] at hti
    rw [hti] at hself
    unfold indexOfNearestAtOrAbove
    omega

/-- Witness for C2 at concrete inputs: tempo 209 clamps to the last
index, and at tempo 100 (a table entry at index 21) the lookup is bounded
by — and equals — that index. -/
theorem indexOfNearestAtOrAbove_correct_witness :
    indexOfNearestAtOrAbove 209 = tempi.length - 1 ∧ indexOfNearestAtOrAbove 100 = 21 :=
  ⟨(indexOfNearestAtOrAbove_correct 209).2.2.2.1 (by norm_num),
    (indexOfNearestAtOrAbove_correct 100).2.2.2.2 21 (by decide) (by decide)⟩

/-- C6: the tick interval fixed at playback start is `60000 //
currentTempo` (Python floor division); in particular 120 → 500 ms,
40 → 1500 ms, 60 → 1000 ms. -/
theorem tick_interval_division (s s₂ : MState) (hp : s.playing = false)
    (hss : startStopMetronome s = some s₂) :
    s₂.timerInterval = Int.fdiv 60000 s.currentTempo ∧
      (s.currentTempo = 120 → s₂.timerInterval = 500) ∧
      (s.currentTempo = 40 → s₂.timerInterval = 1500) ∧
      (s.currentTempo = 60 → s₂.timerInterval = 1000) := by
  by_cases h0 : s.currentTempo = 0
  · rw [startStop_zero_tempo s hp h0] at hss
    cases hss
  · rw [startStop_not_playing s hp h0] at hss
    injection hss with hss
    subst hss
    refine ⟨rfl, ?_, ?_, ?_⟩ <;> intro he <;> simp [startBranch, he]

/-- Witness for C6: starting from the initial state (tempo 40) sets the
interval to 1500 ms. -/
theorem tick_interval_division_witness :
    initState.playing = false ∧
      ∃ s₂, startStopMetronome initState = some s₂ ∧ s₂.timerInterval = 1500 := by
  have h := tick_interval_division initState (startBranch initState) rfl rfl
  exact ⟨rfl, startBranch initState, rfl, h.2.2.1 rfl⟩

/-- C7: in Precise mode, committing an empty text field sets the current
tempo to `TempoTable[0] = 40`, not to the filter's lower bound 20. -/
theorem empty_text_commit_sets_forty (s : MState) (hm : s.mode = .precise) :
    tempi.getD 0 0 = 40 ∧
      ∃ s₂, commitTempoText s "" = some s₂ ∧ s₂.currentTempo = 40 := by
  refine ⟨by decide, ?_⟩
  have h := updateTempo_precise_empty { s with tempoText := "" } hm rfl
  exact ⟨_, h, rfl⟩

/-- Witness for C7 from a concrete Precise-mode state. -/
theorem empty_text_commit_sets_forty_witness :
    ∃ s₂, commitTempoText { initState with mode := Mode.precise } "" = some s₂ ∧
      s₂.currentTempo = 40 :=
  (empty_text_commit_sets_forty { initState with mode := Mode.precise } rfl).2

/-- C9: the playback controller is a two-state machine: initially
stopped; the toggle taken while stopped starts the timer, taken while
running stops and cancels it; start-then-stop returns to stopped; and
the spec-level `stop` operation is idempotent — a second consecutive
`stop` is a deterministic no-op. -/
theorem playback_state_machine :
    initState.playing = false ∧
      (∀ s s₂, s.playing = false → startStopMetronome s = some s₂ →
        s₂.playing = true ∧ s₂.timerActive = true) ∧
      (∀ s s₂, s.playing = true → startStopMetronome s = some s₂ →
        s₂.playing = false ∧ s₂.timerActive = false) ∧
      (∀ s s₁ s₂, s.playing = false → startStopMetronome s = some s₁ →
        startStopMetronome s₁ = some s₂ → s₂.playing = false ∧ s₂.timerActive = false) ∧
      (∀ s, stopOp (stopOp s) = stopOp s) ∧
      (∀ s, s.playing = false → stopOp s = s) := by
  have hstart : ∀ s s₂, s.playing = false → startStopMetronome s = some s₂ →
      s₂.playing = true ∧ s₂.timerActive = true := by
    intro s s₂ hp hss
    by_cases h0 : s.currentTempo = 0
    · rw [startStop_zero_tempo s hp h0] at hss
      cases hss
    · rw [startStop_not_playing s hp h0] at hss
      injection hss with hss
      subst hss
      exact ⟨rfl, rfl⟩
  have hstop : ∀ s s₂, s.playing = true → startStopMetronome s = some s₂ →
      s₂.playing = false ∧ s₂.timerActive = false := by
    intro s s₂ hp hss
    rw [startStop_playing s hp] at hss
    injection hss with hss
    subst hss
    exact ⟨rfl, rfl⟩
  refine ⟨rfl, hstart, hstop, ?_, ?_, ?_⟩
  · intro s s₁ s₂ hp h₁ h₂
    exact hstop s₁ s₂ (hstart s s₁ hp h₁).1 h₂
  · intro s
    by_cases hp : s.playing
    · simp [stopOp, hp, stopBranch]
    · simp [stopOp, hp]
  · intro s hp
    simp [stopOp, hp]

/-- Witness for C9: one start/stop round from the initial state. -/
theorem playback_state_machine_witness :
    ∃ s₁ s₂, startStopMetronome initState = some s₁ ∧ s₁.playing = true ∧
      startStopMetronome s₁ = some s₂ ∧ s₂.playing = false := by
  obtain ⟨-, hstart, -, hrt, -, -⟩ := playback_state_machine
  refine ⟨startBranch initState, stopBranch (startBranch initState), rfl, ?_, rfl, ?_⟩
  · exact (hstart initState _ rfl rfl).1
  · exact (hrt initState _ _ rfl rfl rfl).1

theorem clampLoop_in_range (fuel : Nat) (b t : Int) (s : String) (n : Int)
    (hp : parseInt s = some n) (h1 : b ≤ n) (h2 : n ≤ t) (hf : 1 ≤ fuel) :
    clampLoop fuel b t s = .ok (s, 0) := by
  obtain ⟨m, rfl⟩ : ∃ m, fuel = m + 1 := ⟨fuel - 1, by omega⟩
  rw [clampLoop.eq_2, hp]
  exact if_pos ⟨h1, h2⟩

theorem clampLoop_parse_fail (fuel : Nat) (b t : Int) (s : String)
    (hp : parseInt s = none) (hf : 1 ≤ fuel) :
    clampLoop fuel b t s = .error .valueError := by
  obtain ⟨m, rfl⟩ : ∃ m, fuel = m + 1 := ⟨fuel - 1, by omega⟩
  rw [clampLoop.eq_2, hp]

theorem clampLoop_clamps (fuel : Nat) (b t : Int) (s : String) (n : Int)
    (hp : parseInt s = some n) (hbt : b ≤ t) (hout : ¬(b ≤ n ∧ n ≤ t)) (hf : 2 ≤ fuel) :
    clampLoop fuel b t s = .ok (if n < b then intToStr b else intToStr t, 1) := by
  obtain ⟨m, rfl⟩ : ∃ m, fuel = m + 2 := ⟨fuel - 2, by omega⟩
  have hin : clampLoop (m + 1) b t (if n < b then intToStr b else intToStr t) =
      .ok (if n < b then intToStr b else intToStr t, 0) := by
    by_cases hnb : n < b
    · simp only [if_pos hnb]
      exact clampLoop_in_range _ _ _ _ b (parseInt_intToStr b) le_rfl hbt (by omega)
    · simp only [if_neg hnb]
      exact clampLoop_in_range _ _ _ _ t (parseInt_intToStr t) hbt le_rfl (by omega)
  rw [clampLoop.eq_2, hp]
  show (if b ≤ n ∧ n ≤ t then Except.ok (s, 0)
      else match clampLoop (m + 1) b t (if n < b then intToStr b else intToStr t) with
        | .ok (s₂, k) => .ok (s₂, k + 1)
        | .error e => .error e) = _
  rw [if_neg hout, hin]

/-- C4: the clamp law of `TempoValidator.fixup` with bounds 20/300: an
integer string below range repairs to `"20"` (in one loop iteration),
above range to `"300"`, in range it is returned verbatim, and the empty
string repairs to `"20"`.  `fuel ≥ 2` always suffices for the loop. -/
theorem fixup_clamp_law (n : Int) (fuel : Nat) (hf : 2 ≤ fuel) :
    (n < 20 → fixup fuel 20 300 (intToStr n) = .ok ("20", 1)) ∧
      (300 < n → fixup fuel 20 300 (intToStr n) = .ok ("300", 1)) ∧
      (20 ≤ n → n ≤ 300 → fixup fuel 20 300 (intToStr n) = .ok (intToStr n, 0)) ∧
      fixup fuel 20 300 "" = .ok ("20", 0) := by
  have h20 : intToStr 20 = "20" := by decide
  have h300 : intToStr 300 = "300" := by decide
  have hne := intToStr_ne_empty n
  have hp := parseInt_intToStr n
  refine ⟨?_, ?_, ?_, ?_⟩
  · intro hlt
    rw [fixup, if_neg hne,
      clampLoop_clamps fuel 20 300 _ n hp (by norm_num) (by omega) hf,
      if_pos hlt, h20]
  · intro hgt
    rw [fixup, if_neg hne,
      clampLoop_clamps fuel 20 300 _ n hp (by norm_num) (by omega) hf,
      if_neg (by omega), h300]
  · intro hlo hhi
    rw [fixup, if_neg hne, clampLoop_in_range fuel 20 300 _ n hp hlo hhi (by omega)]
  · rw [fixup, if_pos rfl, h20,
      clampLoop_in_range fuel 20 300 "20" 20 (by decide) le_rfl (by norm_num) (by omega)]

/-- Witness for C4 at `n = 5` and `n = 250` with fuel 2. -/
theorem fixup_clamp_law_witness :
    fixup 2 20 300 (intToStr 5) = .ok ("20", 1) ∧
      fixup 2 20 300 (intToStr 250) = .ok (intToStr 250, 0) :=
  ⟨(fixup_clamp_law 5 2 le_rfl).1 (by norm_num),
    (fixup_clamp_law 250 2 le_rfl).2.2.1 (by norm_num) (by norm_num)⟩

/-- C10: under the validator's precondition (`bottom ≤ top` and the
input empty or integer-parsable) `fixup` returns normally with at most
one clamping replacement — any `fuel ≥ 2` gives the same result, i.e.
the Python `while` loop terminates; a non-empty unparsable input raises
`ValueError` at the `int(s)` step. -/
theorem fixup_total_under_contract (fuel : Nat) (b t : Int) (s : String)
    (hf : 2 ≤ fuel) (hbt : b ≤ t) :
    ((s = "" ∨ ∃ m, parseInt s = some m) →
      ∃ r k, fixup fuel b t s = .ok (r, k) ∧ k ≤ 1) ∧
      (s ≠ "" → parseInt s = none → fixup fuel b t s = .error .valueError) := by
  constructor
  · rintro (rfl | ⟨m, hm⟩)
    · refine ⟨intToStr b, 0, ?_, by omega⟩
      rw [fixup, if_pos rfl,
        clampLoop_in_range fuel b t _ b (parseInt_intToStr b) le_rfl hbt (by omega)]
    · have hne : s ≠ "" := by
        intro he
        rw [he] at hm
        simp [parseInt, trimChars, parseIntChars] at hm
      by_cases hin : b ≤ m ∧ m ≤ t
      · refine ⟨s, 0, ?_, by omega⟩
        rw [fixup, if_neg hne, clampLoop_in_range fuel b t s m hm hin.1 hin.2 (by omega)]
      · refine ⟨if m < b then intToStr b else intToStr t, 1, ?_, by omega⟩
        rw [fixup, if_neg hne, clampLoop_clamps fuel b t s m hm hbt hin hf]
  · intro hne hnone
    rw [fixup, if_neg hne, clampLoop_parse_fail fuel b t s hnone (by omega)]

/-- Witness for C10: a parsable input and an unparsable one, fuel 2. -/
theorem fixup_total_under_contract_witness :
    (∃ r k, fixup 2 20 300 "500" = .ok (r, k) ∧ k ≤ 1) ∧
      fixup 2 20 300 "12a" = .error .valueError :=
  ⟨(fixup_total_under_contract 2 20 300 "500" le_rfl (by norm_num)).1
      (Or.inr ⟨500, by decide⟩),
    (fixup_total_under_contract 2 20 300 "12a" le_rfl (by norm_num)).2
      (by decide) (by decide)⟩

theorem updateTempo_frame (s s₂ : MState) (h : updateTempo s = some s₂) :
    s₂.timerInterval = s.timerInterval ∧ s₂.playing = s.playing ∧
      s₂.timerActive = s.timerActive := by
  unfold updateTempo at h
  cases hm : s.mode <;> rw [hm] at h
  · cases hg : tempi.get? s.sliderValue with
    | none => rw [hg] at h; cases h
    | some v =>
      rw [hg] at h
      injection h with h
      subst h
      exact ⟨rfl, rfl, rfl⟩
  · cases hg : (if s.tempoText = "" then tempi.get? 0 else parseInt s.tempoText) with
    | none => rw [hg] at h; cases h
    | some v =>
      rw [hg] at h
      injection h with h
      subst h
      exact ⟨rfl, rfl, rfl⟩

def precModeFlags (s : MState) : MState :=
  { s with mode := Mode.precise, inputVisible := true, inputEnabled := true,
           promptVisible := true, sliderEnabled := false, sliderVisible := false }

def maelModeFlags (s : MState) : MState :=
  { s with mode := Mode.maelzel, inputVisible := false, inputEnabled := false,
           promptVisible := false, sliderEnabled := true, sliderVisible := true }

theorem switchMode_eq_of_maelzel (s : MState) (hm : s.mode = .maelzel) :
    switchMode s =
      match updateTempo (precModeFlags s) with
      | none => none
      | some s₂ => some { s₂ with modeIndicator := "Mode: " ++ modeStr s₂.mode } := by
  unfold switchMode precModeFlags
  rw [hm]

theorem switchMode_eq_of_precise (s : MState) (hm : s.mode = .precise) :
    switchMode s =
      match updateTempo (maelModeFlags s) with
      | none => none
      | some s₂ => some { s₂ with modeIndicator := "Mode: " ++ modeStr s₂.mode } := by
  unfold switchMode maelModeFlags
  rw [hm]

theorem switchMode_frame (s s₂ : MState) (h : switchMode s = some s₂) :
    s₂.timerInterval = s.timerInterval ∧ s₂.playing = s.playing ∧
      s₂.timerActive = s.timerActive := by
  cases hm : s.mode
  · rw [switchMode_eq_of_maelzel s hm] at h
    cases hu : updateTempo (precModeFlags s) with
    | none => rw [hu] at h; cases h
    | some s₃ =>
      rw [hu] at h
      injection h with h
      subst h
      obtain ⟨h1, h2, h3⟩ := updateTempo_frame (precModeFlags s) s₃ hu
      exact ⟨h1, h2, h3⟩
  · rw [switchMode_eq_of_precise s hm] at h
    cases hu : updateTempo (maelModeFlags s) with
    | none => rw [hu] at h; cases h
    | some s₃ =>
      rw [hu] at h
      injection h with h
      subst h
      obtain ⟨h1, h2, h3⟩ := updateTempo_frame (maelModeFlags s) s₃ hu
      exact ⟨h1, h2, h3⟩

/-- C8: while the metronome is playing, no tempo-changing operation —
slider move, text commit, or mode switch — touches the timer's update
interval, the playing flag, or the timer's running state; only a start
(the toggle taken while stopped) recomputes the interval from the
current tempo. -/
theorem tempo_ops_preserve_timer (s : MState) (hp : s.playing = true) :
    (∀ v s₂, setSliderValue s v = some s₂ →
        s₂.timerInterval = s.timerInterval ∧ s₂.playing = true ∧
          s₂.timerActive = s.timerActive) ∧
      (∀ txt s₂, commitTempoText s txt = some s₂ →
        s₂.timerInterval = s.timerInterval ∧ s₂.playing = true ∧
          s₂.timerActive = s.timerActive) ∧
      (∀ s₂, switchMode s = some s₂ →
        s₂.timerInterval = s.timerInterval ∧ s₂.playing = true ∧
          s₂.timerActive = s.timerActive) ∧
      (∀ u u₂, u.playing = false → startStopMetronome u = some u₂ →
        u₂.timerInterval = Int.fdiv 60000 u.currentTempo) := by
  refine ⟨?_, ?_, ?_, ?_⟩
  · intro v s₂ h
    simp only [setSliderValue] at h
    split at h
    · injection h with h
      subst h
      exact ⟨rfl, hp, rfl⟩
    · obtain ⟨h1, h2, h3⟩ := updateTempo_frame _ _ h
      exact ⟨h1, by rw [h2]; exact hp, h3⟩
  · intro txt s₂ h
    obtain ⟨h1, h2, h3⟩ := updateTempo_frame _ _ h
    exact ⟨h1, by rw [h2]; exact hp, h3⟩
  · intro s₂ h
    obtain ⟨h1, h2, h3⟩ := switchMode_frame _ _ h
    exact ⟨h1, by rw [h2]; exact hp, h3⟩
  · intro u u₂ hup h
    by_cases h0 : u.currentTempo = 0
    · rw [startStop_zero_tempo u hup h0] at h
      cases h
    · rw [startStop_not_playing u hup h0] at h
      injection h with h
      subst h
      rfl

/-- Witness for C8: a mode switch in a playing state leaves the timer
untouched. -/
theorem tempo_ops_preserve_timer_witness :
    ∃ s₂, switchMode (startBranch initState) = some s₂ ∧
      s₂.timerInterval = (startBranch initState).timerInterval ∧ s₂.playing = true := by
  obtain ⟨-, -, hsw, -⟩ := tempo_ops_preserve_timer (startBranch initState) rfl
  obtain ⟨s₂, hs₂⟩ : ∃ s₂, switchMode (startBranch initState) = some s₂ := by
    rw [switchMode_from_maelzel (startBranch initState) rfl rfl]
    exact ⟨_, rfl⟩
  obtain ⟨h1, h2, -⟩ := hsw s₂ hs₂
  exact ⟨s₂, hs₂, h1, h2⟩

/-! ## Invariant preservation (C5) -/

theorem updateTempo_inv_maelzel (s : MState) (hm : s.mode = .maelzel)
    (hv : s.sliderValue < tempi.length) :
    ∃ s₂, updateTempo s = some s₂ ∧ Inv s₂ := by
  refine ⟨_, updateTempo_maelzel s hm hv, ⟨hv, fun _ => ⟨⟨hv, rfl⟩, rfl⟩, fun hpm => ?_⟩⟩
  have h₂ : s.mode = Mode.precise := hpm
  rw [hm] at h₂
  exact Mode.noConfusion h₂

theorem updateTempo_inv_precise (s : MState) (hm : s.mode = .precise)
    (htxt : s.tempoText = "" ∨ ∃ n, parseInt s.tempoText = some n ∧ 20 ≤ n ∧ n ≤ 300) :
    ∃ s₂, updateTempo s = some s₂ ∧ Inv s₂ := by
  rcases htxt with he | ⟨n, hp, hlo, hhi⟩
  · refine ⟨_, updateTempo_precise_empty s hm he, ⟨?_, fun hmm => ?_, fun _ => ?_⟩⟩
    · exact (by decide : (0 : Nat) < tempi.length)
    · have h₂ : s.mode = Mode.maelzel := hmm
      rw [hm] at h₂
      exact Mode.noConfusion h₂
    · exact ⟨⟨by norm_num, by norm_num⟩,
        (by decide : (0 : Nat) = min (bisectLeft tempi 40) sliderMax), Or.inl ⟨he, rfl⟩⟩
  · have hne : s.tempoText ≠ "" := by
      intro he
      rw [he] at hp
      have h₀ : parseInt "" = none := by decide
      rw [h₀] at hp
      cases hp
    refine ⟨_, updateTempo_precise_parse s hm hne n hp, ⟨?_, fun hmm => ?_, fun _ => ?_⟩⟩
    · show min (bisectLeft tempi n) sliderMax < tempi.length
      have h₁ := Nat.min_le_right (bisectLeft tempi n) sliderMax
      have h₂ := sliderMax_lt_length
      omega
    · have h₂ : s.mode = Mode.maelzel := hmm
      rw [hm] at h₂
      exact Mode.noConfusion h₂
    · exact ⟨⟨hlo, hhi⟩, rfl, Or.inr hp⟩

theorem updateTempo_inv (s₁ s₂ : MState)
    (hcond : (s₁.mode = .maelzel ∧ s₁.sliderValue < tempi.length) ∨
      (s₁.mode = .precise ∧
        (s₁.tempoText = "" ∨ ∃ n, parseInt s₁.tempoText = some n ∧ 20 ≤ n ∧ n ≤ 300)))
    (h : updateTempo s₁ = some s₂) : Inv s₂ := by
  rcases hcond with ⟨hm, hv⟩ | ⟨hm, htxt⟩
  · obtain ⟨s₃, hu, hinv₃⟩ := updateTempo_inv_maelzel s₁ hm hv
    rw [hu] at h
    injection h with h
    exact h ▸ hinv₃
  · obtain ⟨s₃, hu, hinv₃⟩ := updateTempo_inv_precise s₁ hm htxt
    rw [hu] at h
    injection h with h
    exact h ▸ hinv₃

theorem switchMode_inv (s s₂ : MState) (hinv : Inv s) (h : switchMode s = some s₂) :
    Inv s₂ := by
  obtain ⟨hsv, hma, hpr⟩ := hinv
  cases hm : s.mode
  · obtain ⟨⟨hv, hct⟩, ht⟩ := hma hm
    rw [switchMode_from_maelzel s hm ht] at h
    injection h with h
    subst h
    refine ⟨?_, fun hmm => ?_, fun _ => ⟨?_, rfl, Or.inr ?_⟩⟩
    · show min (bisectLeft tempi s.currentTempo) sliderMax < tempi.length
      have h₁ := Nat.min_le_right (bisectLeft tempi s.currentTempo) sliderMax
      have h₂ := sliderMax_lt_length
      omega
    · have h₂ : Mode.precise = Mode.maelzel := hmm
      exact Mode.noConfusion h₂
    · have hmem : tempi.get ⟨s.sliderValue, hv⟩ ∈ tempi :=
        List.get_mem tempi s.sliderValue hv
      obtain ⟨hb1, hb2⟩ := tempi_bounds _ hmem
      show 20 ≤ s.currentTempo ∧ s.currentTempo ≤ 300
      rw [hct]
      constructor <;> omega
    · show parseInt s.tempoText = some s.currentTempo
      rw [ht]
      exact parseInt_intToStr s.currentTempo
  · obtain ⟨-, -, -⟩ := hpr hm
    rw [switchMode_from_precise s hm hsv] at h
    injection h with h
    subst h
    refine ⟨hsv, fun _ => ⟨⟨hsv, rfl⟩, rfl⟩, fun hpp => ?_⟩
    have h₂ : Mode.maelzel = Mode.precise := hpp
    exact Mode.noConfusion h₂

theorem setSlider_inv (s : MState) (v : Int) (s₂ : MState) (hinv : Inv s)
    (h : setSliderValue s v = some s₂) : Inv s₂ := by
  obtain ⟨hsv, hma, hpr⟩ := hinv
  simp only [setSliderValue] at h
  split at h
  · injection h with h
    exact h ▸ ⟨hsv, hma, hpr⟩
  · refine updateTempo_inv _ _ ?_ h
    cases hm : s.mode
    · left
      refine ⟨rfl, ?_⟩
      show (min (max v 0) ((sliderMax : Nat) : Int)).toNat < tempi.length
      have h₁ : sliderMax = 38 := by decide
      have h₂ := tempi_length
      omega
    · right
      refine ⟨rfl, ?_⟩
      rcases (hpr hm).2.2 with ⟨he, -⟩ | hp
      · exact Or.inl he
      · exact Or.inr ⟨s.currentTempo, hp, (hpr hm).1.1, (hpr hm).1.2⟩

theorem commitText_inv (s : MState) (txt : String) (s₂ : MState) (hinv : Inv s)
    (hvop : txt = "" ∨ ∃ n, parseInt txt = some n ∧ 20 ≤ n ∧ n ≤ 300)
    (h : commitTempoText s txt = some s₂) : Inv s₂ := by
  obtain ⟨hsv, hma, hpr⟩ := hinv
  refine updateTempo_inv _ _ ?_ h
  cases hm : s.mode
  · exact Or.inl ⟨rfl, hsv⟩
  · exact Or.inr ⟨rfl, hvop⟩

theorem startStop_inv (s s₂ : MState) (hinv : Inv s)
    (h : startStopMetronome s = some s₂) : Inv s₂ := by
  by_cases hp : s.playing = true
  · rw [startStop_playing s hp] at h
    injection h with h
    exact h ▸ hinv
  · have hp₂ : s.playing = false := by
      cases hb : s.playing
      · rfl
      · exact absurd hb hp
    by_cases h0 : s.currentTempo = 0
    · rw [startStop_zero_tempo s hp₂ h0] at h
      cases h
    · rw [startStop_not_playing s hp₂ h0] at h
      injection h with h
      exact h ▸ hinv

/-- C5: starting from the initial state (tempo `TempoTable[0] = 40`,
Maelzel mode), the invariant `Inv` holds and is preserved by every
operation (under the validator's contract on committed text); it yields
the claimed tempo ranges — a table entry in `[40, 208]` in Maelzel mode,
`[20, 300]` in Precise mode — hence a positive tempo, so the start
toggle's division `60000 // currentTempo` can never raise
`ZeroDivisionError` (the `none` outcome is impossible). -/
theorem tempo_mode_invariant :
    Inv initState ∧
      (∀ s op s₂, Inv s → ValidOp op → applyOp s op = some s₂ → Inv s₂) ∧
      (∀ s, Inv s →
        (s.mode = .maelzel →
          s.currentTempo ∈ tempi ∧ 40 ≤ s.currentTempo ∧ s.currentTempo ≤ 208) ∧
          (s.mode = .precise → 20 ≤ s.currentTempo ∧ s.currentTempo ≤ 300) ∧
          0 < s.currentTempo) ∧
      (∀ s, Inv s → applyOp s Op.startStop ≠ none) := by
  have hcons : ∀ s, Inv s →
      (s.mode = .maelzel →
        s.currentTempo ∈ tempi ∧ 40 ≤ s.currentTempo ∧ s.currentTempo ≤ 208) ∧
        (s.mode = .precise → 20 ≤ s.currentTempo ∧ s.currentTempo ≤ 300) ∧
        0 < s.currentTempo := by
    rintro s ⟨hsv, hma, hpr⟩
    cases hm : s.mode
    · obtain ⟨⟨hv, hct⟩, -⟩ := hma hm
      have hmem : tempi.get ⟨s.sliderValue, hv⟩ ∈ tempi :=
        List.get_mem tempi s.sliderValue hv
      obtain ⟨hb1, hb2⟩ := tempi_bounds _ hmem
      rw [← hct] at hb1 hb2 hmem
      refine ⟨fun _ => ⟨hmem, hb1, hb2⟩, fun hpp => ?_, by omega⟩
      exact Mode.noConfusion hpp
    · obtain ⟨⟨hb1, hb2⟩, -, -⟩ := hpr hm
      refine ⟨fun hmm => ?_, fun _ => ⟨hb1, hb2⟩, by omega⟩
      exact Mode.noConfusion hmm
  refine ⟨?_, ?_, hcons, ?_⟩
  · exact ⟨by decide, fun _ => ⟨⟨by decide, by decide⟩, rfl⟩,
      fun hpp => absurd hpp (by decide)⟩
  · intro s op s₂ hinv hvop happ
    cases op with
    | setSlider v => exact setSlider_inv s v s₂ hinv happ
    | commitText txt => exact commitText_inv s txt s₂ hinv hvop happ
    | switchMode => exact switchMode_inv s s₂ hinv happ
    | startStop => exact startStop_inv s s₂ hinv happ
  · intro s hinv hnone
    have hpos := (hcons s hinv).2.2
    have h0 : s.currentTempo ≠ 0 := by omega
    by_cases hp : s.playing = true
    · rw [show applyOp s Op.startStop = startStopMetronome s from rfl,
        startStop_playing s hp] at hnone
      cases hnone
    · have hp₂ : s.playing = false := by
        cases hb : s.playing
        · rfl
        · exact absurd hb hp
      rw [show applyOp s Op.startStop = startStopMetronome s from rfl,
        startStop_not_playing s hp₂ h0] at hnone
      cases hnone

/-- Witness for C5: the invariant holds initially and the start toggle
from the initial state cannot fail. -/
theorem tempo_mode_invariant_witness :
    Inv initState ∧ applyOp initState Op.startStop ≠ none := by
  obtain ⟨h₁, -, -, h₄⟩ := tempo_mode_invariant
  exact ⟨h₁, h₄ initState h₁⟩

/-! ## Mode-switch round trip (C3) -/

theorem min_bisect_lt_length (t : Int) :
    min (bisectLeft tempi t) sliderMax < tempi.length := by
  have h₁ := Nat.min_le_right (bisectLeft tempi t) sliderMax
  have h₂ := sliderMax_lt_length
  omega

/-- C3: in Maelzel mode (text in sync, as the code maintains), switching
to Precise leaves the tempo unchanged; switching back snaps it to
`TempoTable[indexOfNearestAtOrAbove(tempo)]`; and the second double
switch changes nothing at all (the whole state is a fixed point).
Moreover, from any Precise-mode state whose slider has been re-synced
(as `__update_tempo` guarantees), switching into Maelzel performs
exactly that snap. -/
theorem mode_switch_round_trip :
    (∀ s, s.mode = .maelzel → s.tempoText = intToStr s.currentTempo →
      ∃ s₁ s₂ s₃ s₄,
        switchMode s = some s₁ ∧ s₁.currentTempo = s.currentTempo ∧
          s₁.mode = .precise ∧
          switchMode s₁ = some s₂ ∧ s₂.mode = .maelzel ∧
          s₂.currentTempo = tempi.getD (indexOfNearestAtOrAbove s.currentTempo) 0 ∧
          switchMode s₂ = some s₃ ∧ switchMode s₃ = some s₄ ∧ s₄ = s₂) ∧
      (∀ s s₂, s.mode = .precise →
        s.sliderValue = min (bisectLeft tempi s.currentTempo) sliderMax →
        switchMode s = some s₂ →
        s₂.currentTempo = tempi.getD (indexOfNearestAtOrAbove s.currentTempo) 0) := by
  constructor
  · intro s hm ht
    have hiv : min (bisectLeft tempi s.currentTempo) sliderMax < tempi.length :=
      min_bisect_lt_length s.currentTempo
    have h₁ := switchMode_from_maelzel s hm ht
    have h₂ := switchMode_from_precise
      { s with mode := Mode.precise, inputVisible := true, inputEnabled := true,
               promptVisible := true, sliderEnabled := false, sliderVisible := false,
               sliderValue := min (bisectLeft tempi s.currentTempo) sliderMax,
               tempoIndicator := intToStr s.currentTempo,
               markingText := getMarking s.currentTempo,
               modeIndicator := "Mode: Precise tempo" } rfl hiv
    have hkey : bisectLeft tempi
        (tempi.get ⟨min (bisectLeft tempi s.currentTempo) sliderMax, hiv⟩) =
        min (bisectLeft tempi s.currentTempo) sliderMax := by
      have h := bisectLeft_get_self tempi tempi_sorted
        (min (bisectLeft tempi s.currentTempo) sliderMax) hiv
      simpa using h
    have hmin₂ : min (min (bisectLeft tempi s.currentTempo) sliderMax) sliderMax =
        min (bisectLeft tempi s.currentTempo) sliderMax := by
      have h₃ := Nat.min_le_right (bisectLeft tempi s.currentTempo) sliderMax
      omega
    refine ⟨_, _, _, _, h₁, rfl, rfl, h₂, rfl, ?_,
      switchMode_from_maelzel _ rfl rfl,
      switchMode_from_precise _ rfl (min_bisect_lt_length _), ?_⟩
    · unfold indexOfNearestAtOrAbove
      rw [List.getD_eq_getElem tempi 0 hiv]
      rfl
    · simp only [hkey, hmin₂]
  · intro s s₂ hm hsl h
    have hv : s.sliderValue < tempi.length := by
      rw [hsl]
      exact min_bisect_lt_length s.currentTempo
    rw [switchMode_from_precise s hm hv] at h
    injection h with h
    subst h
    show tempi.get ⟨s.sliderValue, hv⟩ =
      tempi.getD (indexOfNearestAtOrAbove s.currentTempo) 0
    have hidx : indexOfNearestAtOrAbove s.currentTempo = s.sliderValue := hsl.symm
    rw [hidx, List.getD_eq_getElem tempi 0 hv, List.get_eq_getElem]

/-- Witness for C3: the double switch from the initial state (tempo 40,
a table entry) returns to tempo 40. -/
theorem mode_switch_round_trip_witness :
    ∃ s₁ s₂, switchMode initState = some s₁ ∧
      s₁.currentTempo = initState.currentTempo ∧ switchMode s₁ = some s₂ ∧
      s₂.currentTempo = tempi.getD (indexOfNearestAtOrAbove initState.currentTempo) 0 := by
  obtain ⟨s₁, s₂, s₃, s₄, h₁, h₂, -, h₃, -, h₄, -⟩ :=
    mode_switch_round_trip.1 initState rfl rfl
  exact ⟨s₁, s₂, h₁, h₂, h₃, h₄⟩

end MetronomiQ
